import Mathlib

/-!
Verification of the `process_files` pipeline in `tt.py`.

The program loads a song, computes a bass-energy curve from the STFT
(librosa), detects peaks with `scipy.signal.find_peaks` at height
`0.7 * np.max(bass_energy)`, builds a sorted cut-time sequence
`[0, peak_times…, song_duration]`, extracts one randomly positioned
sub-clip of the source video per positive-duration cut interval
(skipping zero or negative durations), concatenates them, mixes the
concatenated videos native audio (halved volume) with the song trimmed
to the output duration (halved volume), and writes the result.  Every
stage reports progress through a callback, and a single top-level
`try/except` turns any exception into one error message box.

The embedding works over ℚ.  Library calls are embedded by their
documented behaviour:
* `np.max` of an empty array raises `ValueError`;
* `scipy.signal.find_peaks` locates strict local maxima of the interior
  samples, a flat plateau counting once at its midpoint, then keeps the
  maxima whose value is at least the `height` bound;
* `librosa.frames_to_time` with the default `hop_length = 512` maps
  frame `k` to `k * 512 / sr`, and `librosa.get_duration` is
  `len(y) / sr`;
* `random.uniform(0, m)` is `m * random()` with `random() ∈ [0, 1)`;
* `np.sort` sorts ascending (insertion sort is a stable ascending sort);
* `concatenate_videoclips` of an empty clip list raises;
* `final_video.audio` is `None` when the source video has no audio
  track, so `None.volumex(0.5)` raises `AttributeError`;
* `CompositeAudioClip` of two clips starting at 0 has duration equal to
  the maximum of the two durations and mixes the two signals.
Outcomes of the calls that depend on the outside world (decoding the
audio, opening the video, the random draws, the final encode) are
supplied through an environment record `Env`.
-/

namespace VideoEdit

/-! ### scipy.signal.find_peaks -/

/-- The inner `while` loop of scipy `_local_maxima_1d`: starting at
`ia`, advance while `ia < iMax` and `x[ia] == v` (`v` is the candidate
peak value), returning the first index past the plateau.  `fuel`
bounds the recursion; callers pass `x.length + 1`, which is more than
the number of remaining indices, so the bound is never hit. -/
def plateauEnd (x : List ℚ) (v : ℚ) (iMax : ℕ) : ℕ → ℕ → ℕ
  | 0, ia => ia
  | fuel + 1, ia =>
    if ia < iMax ∧ x.getD ia 0 = v then plateauEnd x v iMax fuel (ia + 1) else ia

/-- The plateau end for the candidate peak at index `i`. -/
def plateauEndAt (x : List ℚ) (iMax : ℕ) (i : ℕ) : ℕ :=
  plateauEnd x (x.getD i 0) iMax (x.length + 1) (i + 1)

/-- The outer loop of scipy `_local_maxima_1d`: scan `i` from 1 to
`iMax - 1` (`iMax = n - 1`); where `x[i-1] < x[i]` and the plateau of
value `x[i]` is followed by a strictly smaller sample, record the
plateau midpoint `(i + (ia - 1)) / 2` and resume after the plateau,
otherwise advance by one.  `fuel` bounds the recursion; callers pass
`x.length + 1` and `i` advances by at least one per step, so the bound
is never hit. -/
def localMaxAux (x : List ℚ) (iMax : ℕ) : ℕ → ℕ → List ℕ
  | 0, _ => []
  | fuel + 1, i =>
    if i < iMax then
      if x.getD (i - 1) 0 < x.getD i 0 ∧ x.getD (plateauEndAt x iMax i) 0 < x.getD i 0 then
        (i + (plateauEndAt x iMax i - 1)) / 2
          :: localMaxAux x iMax fuel (plateauEndAt x iMax i + 1)
      else localMaxAux x iMax fuel (i + 1)
    else []

/-- scipy `_local_maxima_1d`: all interior local maxima of `x`. -/
def localMaxima (x : List ℚ) : List ℕ :=
  localMaxAux x (x.length - 1) (x.length + 1) 1

/-- `scipy.signal.find_peaks(x, height=height)`: the local maxima whose
sample value is at least `height`. -/
def find_peaks (x : List ℚ) (height : ℚ) : List ℕ :=
  (localMaxima x).filter (fun p => decide (height ≤ x.getD p 0))

/-! ### numpy and librosa primitives -/

/-- `np.max`: maximum of an array; raises `ValueError` on empty input. -/
def npMax : List ℚ → Except String ℚ
  | [] => .error "zero-size array to reduction operation maximum which has no identity"
  | a :: rest => .ok (rest.foldl max a)

/-- `librosa.frames_to_time(frame, sr=sr)` with the default
`hop_length = 512`: `frame * 512 / sr`. -/
def frames_to_time (sr : ℚ) (frame : ℕ) : ℚ := (frame : ℚ) * 512 / sr

/-- Line 48 of `tt.py`:
`np.sort(np.concatenate(([0], peak_times, [song_duration])))`. -/
def cut_times (peak_times : List ℚ) (song_duration : ℚ) : List ℚ :=
  List.insertionSort (· ≤ ·) (0 :: peak_times ++ [song_duration])

/-- Lines 42–48 of `tt.py`: peaks of the bass-energy curve at height
`mx * 0.7` (`mx` is the `np.max` of the curve), their timestamps, and
the sorted cut-time sequence. -/
def process_cut_times (bassEnergy : List ℚ) (sr song_duration mx : ℚ) : List ℚ :=
  cut_times ((find_peaks bassEnergy (mx * (7 / 10))).map (frames_to_time sr)) song_duration

/-! ### Progress events -/

/-- One observable event of a run: a progress-callback message, the
success message box, or the error message box from the `except` arm. -/
inductive Ev
  | stft
  | peakDetect
  | loadingVideo
  | clipProgress (i total : ℕ)
  | concatenating
  | mergingAudio
  | saving
  | completed
  | successBox
  | errorBox (e : String)
  deriving DecidableEq, Repr

/-- The exact strings delivered by `tt.py` for each event. -/
def Ev.render : Ev → String
  | .stft => "Calculating STFT..."
  | .peakDetect => "Detecting peak points..."
  | .loadingVideo => "Loading video..."
  | .clipProgress i total => toString i ++ "/" ++ toString total ++ " clips processed..."
  | .concatenating => "Concatenating clips..."
  | .mergingAudio => "Merging audio..."
  | .saving => "Saving video..."
  | .completed => "Process completed!"
  | .successBox => "The video was successfully created!"
  | .errorBox e => "An error occurred: " ++ e

/-! ### The clip-building loop (lines 58–76) -/

/-- `random.uniform(0, hi)` is `hi * random()`; `u` is the unit draw. -/
def random_uniform (hi u : ℚ) : ℚ := hi * u

/-- The loop body of lines 60–76 of `tt.py`, over the remaining cut
times, with `i` the loop index: for each consecutive pair compute the
interval duration, skip it when `≤ 0`, otherwise pick the random start
in `[0, max(0, video_duration − clip_duration)]`, record the sub-clip
range, and emit the `i+1 / total` progress message. -/
def buildClipsAux (vd : ℚ) (u : ℕ → ℚ) (total : ℕ) :
    List ℚ → ℕ → List (ℚ × ℚ) × List Ev
  | t0 :: t1 :: rest, i =>
    let d := t1 - t0
    let tail := buildClipsAux vd u total (t1 :: rest) (i + 1)
    if d ≤ 0 then tail
    else
      let rs := random_uniform (max 0 (vd - d)) (u i)
      ((rs, rs + d) :: tail.1, Ev.clipProgress (i + 1) total :: tail.2)
  | _, _ => ([], [])

/-- Lines 58–76 of `tt.py`: the extracted sub-clip ranges and the
per-clip progress events, with `total = len(cut_times) - 1`. -/
def buildClips (ct : List ℚ) (vd : ℚ) (u : ℕ → ℚ) : List (ℚ × ℚ) × List Ev :=
  buildClipsAux vd u (ct.length - 1) ct 0

/-! ### moviepy audio model -/

/-- Symbolic audio clips as built by lines 83–93 of `tt.py`:
a source track of known duration, a trimmed range, a volume scaling,
and the two-clip `CompositeAudioClip` mix. -/
inductive Audio
  | source (name : String) (dur : ℚ)
  | subclip (a : Audio) (t0 t1 : ℚ)
  | volumex (a : Audio) (factor : ℚ)
  | composite (a b : Audio)
  deriving DecidableEq, Repr

/-- Duration of an audio clip: `CompositeAudioClip` of clips starting
at 0 ends at the maximum of the durations; `subclip t0 t1` lasts
`t1 - t0`; `volumex` leaves the duration unchanged. -/
def audioDuration : Audio → ℚ
  | .source _ d => d
  | .subclip _ t0 t1 => t1 - t0
  | .volumex a _ => audioDuration a
  | .composite a b => max (audioDuration a) (audioDuration b)

/-! ### The pipeline -/

/-- The source video as opened by `VideoFileClip`. -/
structure Video where
  duration : ℚ
  fps : ℚ
  hasAudio : Bool
  deriving DecidableEq, Repr

/-- Outcomes of the outside-world library calls of one run:
`librosa.load` (the sample count and sample rate, or a decode error),
the bass-energy curve computed by the STFT stage, `VideoFileClip`,
the unit random draw used at loop iteration `i`, and
`write_videofile`. -/
structure Env where
  load : Except String (ℕ × ℚ)
  bassEnergy : List ℚ
  video : Except String Video
  u : ℕ → ℚ
  writeResult : Except String Unit

/-- The written output file: the sub-clip ranges in order, the final
video duration, its audio track, and the frame rate. -/
structure Output where
  clips : List (ℚ × ℚ)
  duration : ℚ
  audio : Audio
  fps : ℚ
  deriving DecidableEq, Repr

/-- The progress events every run that reaches the concatenation stage
has emitted so far: the three fixed stage messages, the per-clip
messages of the loop, and the concatenation message. -/
def preEvents (ct : List ℚ) (vd : ℚ) (u : ℕ → ℚ) : List Ev :=
  [Ev.stft, Ev.peakDetect, Ev.loadingVideo] ++ (buildClips ct vd u).2 ++ [Ev.concatenating]

/-- `concatenate_videoclips` with `method='compose'`: the duration of
the concatenation is the sum of the clip durations. -/
def finalDuration (clips : List (ℚ × ℚ)) : ℚ := (clips.map (fun c => c.2 - c.1)).sum

/-- Lines 83–96 of `tt.py`: the native audio of the concatenated video
(whose duration is the final video duration) at half volume, composed
with the song trimmed to the final duration at half volume. -/
def mixedAudio (song_duration final_duration : ℚ) : Audio :=
  Audio.composite
    (Audio.volumex (Audio.source "native" final_duration) (1 / 2))
    (Audio.volumex
      (Audio.subclip (Audio.source "song" song_duration) 0 final_duration) (1 / 2))

/-- `process_files` of `tt.py`: the full pipeline, returning the
ordered list of observable events and the written output (or `none`
when an exception reached the top-level `except`). -/
def process_files (env : Env) : List Ev × Option Output :=
  match env.load with
  | .error e => ([.errorBox e], none)
  | .ok (n, sr) =>
    match npMax env.bassEnergy with
    | .error e => ([.stft, .peakDetect, .errorBox e], none)
    | .ok mx =>
      match env.video with
      | .error e => ([.stft, .peakDetect, .loadingVideo, .errorBox e], none)
      | .ok v =>
        if (buildClips (process_cut_times env.bassEnergy sr ((n : ℚ) / sr) mx)
            v.duration env.u).1.isEmpty then
          (preEvents (process_cut_times env.bassEnergy sr ((n : ℚ) / sr) mx) v.duration env.u
              ++ [.errorBox "at least one clip is needed to concatenate"], none)
        else if v.hasAudio then
          match env.writeResult with
          | .error e =>
            (preEvents (process_cut_times env.bassEnergy sr ((n : ℚ) / sr) mx) v.duration env.u
                ++ [.mergingAudio, .saving, .errorBox e], none)
          | .ok _ =>
            (preEvents (process_cut_times env.bassEnergy sr ((n : ℚ) / sr) mx) v.duration env.u
                ++ [.mergingAudio, .saving, .completed, .successBox],
              some ⟨(buildClips (process_cut_times env.bassEnergy sr ((n : ℚ) / sr) mx)
                  v.duration env.u).1,
                finalDuration (buildClips (process_cut_times env.bassEnergy sr ((n : ℚ) / sr) mx)
                  v.duration env.u).1,
                mixedAudio ((n : ℚ) / sr)
                  (finalDuration (buildClips
                    (process_cut_times env.bassEnergy sr ((n : ℚ) / sr) mx) v.duration env.u).1),
                v.fps⟩)
        else
          (preEvents (process_cut_times env.bassEnergy sr ((n : ℚ) / sr) mx) v.duration env.u
              ++ [.mergingAudio, .errorBox "NoneType object has no attribute volumex"], none)

/-! ### Event classification -/

/-- Whether an event is the error message box. -/
def isErrorEv : Ev → Bool
  | .errorBox _ => true
  | _ => false

/-- Whether an event ends a run (the error box or the success box). -/
def isTerminalEv : Ev → Bool
  | .errorBox _ => true
  | .successBox => true
  | _ => false

/-- The semantic stage of an event, in pipeline order. -/
def evStage : Ev → ℕ
  | .stft => 0
  | .peakDetect => 1
  | .loadingVideo => 2
  | .clipProgress _ _ => 3
  | .concatenating => 4
  | .mergingAudio => 5
  | .saving => 6
  | .completed => 7
  | .successBox => 8
  | .errorBox _ => 9

/-- The numerator of a per-clip progress message (0 otherwise). -/
def clipNum : Ev → ℕ
  | .clipProgress i _ => i
  | _ => 0

/-- Successor relation of a well-ordered event trace: the stage
strictly increases, except between two per-clip messages, whose
numerators must strictly increase. -/
def evRel (a b : Ev) : Prop :=
  evStage a < evStage b ∨ (evStage a = 3 ∧ evStage b = 3 ∧ clipNum a < clipNum b)

instance : DecidableRel evRel := fun a b =>
  inferInstanceAs (Decidable (evStage a < evStage b
    ∨ (evStage a = 3 ∧ evStage b = 3 ∧ clipNum a < clipNum b)))

/-! ### Characterization of the clip-building loop -/

/-- The indexed consecutive cut-time pairs with positive duration,
indices starting at `i`. -/
def posIntervals (l : List ℚ) (i : ℕ) : List (ℕ × ℚ × ℚ) :=
  ((l.zip l.tail).enumFrom i).filter (fun p => decide (0 < p.2.2 - p.2.1))

/-- The sub-clip range the loop extracts for the indexed interval `p`. -/
def clipFor (vd : ℚ) (u : ℕ → ℚ) (p : ℕ × ℚ × ℚ) : ℚ × ℚ :=
  (random_uniform (max 0 (vd - (p.2.2 - p.2.1))) (u p.1),
    random_uniform (max 0 (vd - (p.2.2 - p.2.1))) (u p.1) + (p.2.2 - p.2.1))

lemma buildClipsAux_eq (vd : ℚ) (u : ℕ → ℚ) (total : ℕ) :
    ∀ (l : List ℚ) (i : ℕ),
      buildClipsAux vd u total l i =
        ((posIntervals l i).map (clipFor vd u),
          (posIntervals l i).map (fun p => Ev.clipProgress (p.1 + 1) total)) := by
  intro l
  induction l with
  | nil => intro i; simp [buildClipsAux, posIntervals]
  | cons t0 l ih =>
    intro i
    cases l with
    | nil => simp [buildClipsAux, posIntervals]
    | cons t1 rest =>
      by_cases hd : t1 - t0 ≤ 0
      · have hnot : ¬(0 < t1 - t0) := not_lt.2 hd
        simp only [buildClipsAux, if_pos hd, ih (i + 1), posIntervals, List.zip_cons_cons,
          List.tail_cons, List.enumFrom_cons, List.filter_cons]
        simp [hnot]
      · have hpos : 0 < t1 - t0 := not_le.1 hd
        simp only [buildClipsAux, if_neg hd, ih (i + 1), posIntervals, List.zip_cons_cons,
          List.tail_cons, List.enumFrom_cons, List.filter_cons]
        simp [hpos, clipFor]

lemma buildClips_eq (ct : List ℚ) (vd : ℚ) (u : ℕ → ℚ) :
    buildClips ct vd u =
      ((posIntervals ct 0).map (clipFor vd u),
        (posIntervals ct 0).map (fun p => Ev.clipProgress (p.1 + 1) (ct.length - 1))) :=
  buildClipsAux_eq vd u (ct.length - 1) ct 0

lemma mem_enumFrom_le {α : Type*} :
    ∀ (xs : List α) (i : ℕ) (p : ℕ × α), p ∈ List.enumFrom i xs → i ≤ p.1 := by
  intro xs
  induction xs with
  | nil => intro i p hp; simp [List.enumFrom] at hp
  | cons a xs ih =>
    intro i p hp
    rw [List.enumFrom_cons] at hp
    rcases List.mem_cons.1 hp with h | h
    · subst h; exact le_refl i
    · exact le_trans (Nat.le_succ i) (ih (i + 1) p h)

lemma pairwise_enumFrom_fst {α : Type*} :
    ∀ (xs : List α) (i : ℕ),
      List.Pairwise (fun p q : ℕ × α => p.1 < q.1) (List.enumFrom i xs) := by
  intro xs
  induction xs with
  | nil => intro i; simp [List.enumFrom]
  | cons a xs ih =>
    intro i
    rw [List.enumFrom_cons]
    refine List.pairwise_cons.2 ⟨?_, ih (i + 1)⟩
    intro q hq
    have := mem_enumFrom_le xs (i + 1) q hq
    omega

lemma mem_posIntervals (l : List ℚ) (i : ℕ) (p : ℕ × ℚ × ℚ) (hp : p ∈ posIntervals l i) :
    0 < p.2.2 - p.2.1 ∧ i ≤ p.1 := by
  rcases List.mem_filter.1 hp with ⟨hmem, hpos⟩
  exact ⟨by simpa using hpos, mem_enumFrom_le _ _ _ hmem⟩

lemma pairwise_posIntervals (l : List ℚ) (i : ℕ) :
    List.Pairwise (fun p q : ℕ × ℚ × ℚ => p.1 < q.1) (posIntervals l i) :=
  List.Pairwise.sublist (List.filter_sublist _) (pairwise_enumFrom_fst _ i)

lemma clipEvs_shape (ct : List ℚ) (vd : ℚ) (u : ℕ → ℚ) :
    ∀ e ∈ (buildClips ct vd u).2, ∃ j, e = Ev.clipProgress (j + 1) (ct.length - 1) := by
  intro e he
  rw [buildClips_eq] at he
  rcases List.mem_map.1 he with ⟨p, _, hpe⟩
  exact ⟨p.1, hpe.symm⟩

lemma clipEvs_stage3 (ct : List ℚ) (vd : ℚ) (u : ℕ → ℚ) :
    ∀ e ∈ (buildClips ct vd u).2, evStage e = 3 := by
  intro e he
  rcases clipEvs_shape ct vd u e he with ⟨j, rfl⟩
  rfl

lemma clipEvs_countP_error (ct : List ℚ) (vd : ℚ) (u : ℕ → ℚ) :
    (buildClips ct vd u).2.countP isErrorEv = 0 := by
  refine List.countP_eq_zero.2 ?_
  intro e he
  rcases clipEvs_shape ct vd u e he with ⟨j, rfl⟩
  simp [isErrorEv]

lemma clipEvs_countP_terminal (ct : List ℚ) (vd : ℚ) (u : ℕ → ℚ) :
    (buildClips ct vd u).2.countP isTerminalEv = 0 := by
  refine List.countP_eq_zero.2 ?_
  intro e he
  rcases clipEvs_shape ct vd u e he with ⟨j, rfl⟩
  simp [isTerminalEv]

lemma clipEvs_chain (ct : List ℚ) (vd : ℚ) (u : ℕ → ℚ) :
    List.Chain' evRel (buildClips ct vd u).2 := by
  rw [buildClips_eq]
  apply List.Pairwise.chain'
  refine List.pairwise_map.2 ?_
  refine (pairwise_posIntervals ct 0).imp ?_
  intro p q h
  exact Or.inr ⟨rfl, rfl, Nat.succ_lt_succ h⟩

lemma clips_shape (ct : List ℚ) (vd : ℚ) (u : ℕ → ℚ) :
    ∀ c ∈ (buildClips ct vd u).1,
      ∃ p ∈ posIntervals ct 0, c = clipFor vd u p := by
  intro c hc
  rw [buildClips_eq] at hc
  rcases List.mem_map.1 hc with ⟨p, hp, hpc⟩
  exact ⟨p, hp, hpc.symm⟩

lemma clips_pos_duration (ct : List ℚ) (vd : ℚ) (u : ℕ → ℚ) :
    ∀ c ∈ (buildClips ct vd u).1, 0 < c.2 - c.1 := by
  intro c hc
  rcases clips_shape ct vd u c hc with ⟨p, hp, rfl⟩
  have := (mem_posIntervals ct 0 p hp).1
  simp only [clipFor]
  linarith [this]

lemma length_filter_enumFrom {α : Type*} (q : α → Bool) :
    ∀ (xs : List α) (i : ℕ),
      ((List.enumFrom i xs).filter (fun p => q p.2)).length = (xs.filter q).length := by
  intro xs
  induction xs with
  | nil => intro i; simp [List.enumFrom]
  | cons a xs ih =>
    intro i
    rw [List.enumFrom_cons, List.filter_cons, List.filter_cons]
    by_cases hq : q a
    · simp only [hq]; simp [ih (i + 1)]
    · simp only [hq]; simp [ih (i + 1)]

lemma clips_length (ct : List ℚ) (vd : ℚ) (u : ℕ → ℚ) :
    (buildClips ct vd u).1.length =
      ((ct.zip ct.tail).filter (fun c => decide (0 < c.2 - c.1))).length := by
  rw [buildClips_eq]
  simp only [List.length_map, posIntervals]
  exact length_filter_enumFrom (fun c : ℚ × ℚ => decide (0 < c.2 - c.1)) (ct.zip ct.tail) 0

/-! ### Facts about the peak detector -/

lemma plateauEnd_ge (x : List ℚ) (v : ℚ) (iMax : ℕ) :
    ∀ (fuel ia : ℕ), ia ≤ plateauEnd x v iMax fuel ia := by
  intro fuel
  induction fuel with
  | zero => intro ia; simp [plateauEnd]
  | succ f ih =>
    intro ia
    rw [plateauEnd]
    split
    · exact le_trans (Nat.le_succ ia) (ih (ia + 1))
    · exact le_refl ia

lemma plateauEnd_le (x : List ℚ) (v : ℚ) (iMax : ℕ) :
    ∀ (fuel ia : ℕ), ia ≤ iMax → plateauEnd x v iMax fuel ia ≤ iMax := by
  intro fuel
  induction fuel with
  | zero => intro ia h; simpa [plateauEnd] using h
  | succ f ih =>
    intro ia h
    rw [plateauEnd]
    split
    · next hcond => exact ih (ia + 1) hcond.1
    · exact h

lemma plateauEndAt_ge (x : List ℚ) (iMax i : ℕ) : i + 1 ≤ plateauEndAt x iMax i :=
  plateauEnd_ge x _ iMax _ (i + 1)

lemma plateauEndAt_le (x : List ℚ) (iMax i : ℕ) (h : i < iMax) :
    plateauEndAt x iMax i ≤ iMax :=
  plateauEnd_le x _ iMax _ (i + 1) h

lemma localMaxAux_bounds (x : List ℚ) (iMax : ℕ) :
    ∀ (fuel i : ℕ), 1 ≤ i →
      (∀ p ∈ localMaxAux x iMax fuel i, i ≤ p ∧ p + 1 ≤ iMax) ∧
        List.Pairwise (· < ·) (localMaxAux x iMax fuel i) := by
  intro fuel
  induction fuel with
  | zero => intro i _; simp [localMaxAux]
  | succ f ih =>
    intro i hi
    rw [localMaxAux]
    split
    · next hlt =>
      split
      · next hrec =>
        have hia1 : i + 1 ≤ plateauEndAt x iMax i := plateauEndAt_ge x iMax i
        have hia2 : plateauEndAt x iMax i ≤ iMax := plateauEndAt_le x iMax i hlt
        obtain ⟨htail, hptail⟩ := ih (plateauEndAt x iMax i + 1) (by omega)
        constructor
        · intro p hp
          rcases List.mem_cons.1 hp with h | h
          · subst h; omega
          · have := htail p h; omega
        · refine List.pairwise_cons.2 ⟨?_, hptail⟩
          intro p hp
          have := htail p hp
          omega
      · exact ⟨fun p hp => by have := (ih (i + 1) (by omega)).1 p hp; omega,
          (ih (i + 1) (by omega)).2⟩
    · simp

lemma find_peaks_bounds (x : List ℚ) (h : ℚ) :
    ∀ p ∈ find_peaks x h, 1 ≤ p ∧ p + 1 ≤ x.length - 1 := by
  intro p hp
  have hp' : p ∈ localMaxima x := (List.mem_filter.1 hp).1
  have := (localMaxAux_bounds x (x.length - 1) (x.length + 1) 1 (le_refl 1)).1 p hp'
  omega

lemma find_peaks_pairwise (x : List ℚ) (h : ℚ) :
    List.Pairwise (· < ·) (find_peaks x h) :=
  List.Pairwise.sublist (List.filter_sublist _)
    (localMaxAux_bounds x (x.length - 1) (x.length + 1) 1 (le_refl 1)).2

lemma localMaxAux_flat (x : List ℚ) (iMax : ℕ) (c : ℚ)
    (hlen : iMax + 1 ≤ x.length) (hc : ∀ y ∈ x, y = c) :
    ∀ (fuel i : ℕ), 1 ≤ i → localMaxAux x iMax fuel i = [] := by
  intro fuel
  induction fuel with
  | zero => intro i _; simp [localMaxAux]
  | succ f ih =>
    intro i hi
    rw [localMaxAux]
    split
    · next hlt =>
      have h1 : x.getD (i - 1) 0 = c := by
        have hr : i - 1 < x.length := by omega
        rw [List.getD_eq_getElem x 0 hr]
        exact hc _ (List.getElem_mem hr)
      have h2 : x.getD i 0 = c := by
        have hr : i < x.length := by omega
        rw [List.getD_eq_getElem x 0 hr]
        exact hc _ (List.getElem_mem hr)
      rw [if_neg]
      · exact ih (i + 1) (by omega)
      · rw [h1, h2]
        intro hcon
        exact lt_irrefl c hcon.1
    · rfl

lemma find_peaks_flat (x : List ℚ) (c : ℚ) (hc : ∀ y ∈ x, y = c) (h : ℚ) :
    find_peaks x h = [] := by
  unfold find_peaks localMaxima
  cases x with
  | nil => simp [localMaxAux]
  | cons a l =>
    rw [localMaxAux_flat (a :: l) ((a :: l).length - 1) c (by simp) hc _ 1 (le_refl 1)]
    rfl

/-! ### Facts about npMax -/

lemma npMax_flat (x : List ℚ) (c : ℚ) (hne : x ≠ []) (hc : ∀ y ∈ x, y = c) :
    npMax x = .ok c := by
  cases x with
  | nil => exact absurd rfl hne
  | cons a l =>
    have ha : a = c := hc a (by simp)
    subst ha
    simp only [npMax]
    congr 1
    have : ∀ y ∈ l, y = a := fun y hy => hc y (by simp [hy])
    clear hc hne
    induction l with
    | nil => rfl
    | cons b l ih =>
      have hb : b = a := this b (by simp)
      subst hb
      simp only [List.foldl_cons, max_self]
      exact ih (fun y hy => this y (by simp [hy]))

lemma mem_of_getLastQ {α : Type*} {l : List α} {x : α} (h : x ∈ l.getLast?) : x ∈ l := by
  rcases List.mem_getLast?_eq_getLast h with ⟨hne, rfl⟩
  exact List.getLast_mem hne

/-! ### Strict ordering of the cut-time sequence

The hypotheses reflect librosa invariants of the upstream calls:
the sample rate is positive, the signal is nonempty, and with
`center=True` framing the STFT produces `1 + len(y) // 512` frames,
so `len(y) ≥ (n_frames − 1) * 512`. -/

lemma peak_times_facts (bassEnergy : List ℚ) (n : ℕ) (sr h : ℚ)
    (hsr : 0 < sr) (hframes : (bassEnergy.length - 1) * 512 ≤ n) :
    (∀ t ∈ (find_peaks bassEnergy h).map (frames_to_time sr), 0 < t ∧ t < (n : ℚ) / sr)
    ∧ List.Pairwise (· < ·) ((find_peaks bassEnergy h).map (frames_to_time sr)) := by
  constructor
  · intro t ht
    rcases List.mem_map.1 ht with ⟨p, hp, rfl⟩
    have hb := find_peaks_bounds bassEnergy h p hp
    constructor
    · unfold frames_to_time
      apply div_pos _ hsr
      have h1 : (1 : ℚ) ≤ (p : ℚ) := by exact_mod_cast hb.1
      nlinarith
    · unfold frames_to_time
      rw [div_lt_div_iff_of_pos_right hsr]
      have h1 : (p + 1) * 512 ≤ n := by
        have h2 : (p + 1) * 512 ≤ (bassEnergy.length - 1) * 512 :=
          Nat.mul_le_mul_right _ hb.2
        omega
      have h2 : ((p : ℚ) + 1) * 512 ≤ (n : ℚ) := by exact_mod_cast h1
      nlinarith
  · rw [List.pairwise_map]
    refine (find_peaks_pairwise bassEnergy h).imp ?_
    intro a b hab
    unfold frames_to_time
    rw [div_lt_div_iff_of_pos_right hsr]
    have h1 : (a : ℚ) < (b : ℚ) := by exact_mod_cast hab
    nlinarith

lemma cut_list_pairwise (bassEnergy : List ℚ) (n : ℕ) (sr h : ℚ)
    (hsr : 0 < sr) (hn : 0 < n) (hframes : (bassEnergy.length - 1) * 512 ≤ n) :
    List.Pairwise (· < ·)
      (0 :: (find_peaks bassEnergy h).map (frames_to_time sr) ++ [(n : ℚ) / sr]) := by
  obtain ⟨hmem, hpw⟩ := peak_times_facts bassEnergy n sr h hsr hframes
  have hsd : 0 < (n : ℚ) / sr := div_pos (by exact_mod_cast hn) hsr
  refine List.pairwise_cons.2 ⟨?_, ?_⟩
  · intro y hy
    rcases List.mem_append.1 hy with hy | hy
    · exact (hmem y hy).1
    · simp only [List.mem_singleton] at hy
      subst hy
      exact hsd
  · refine List.pairwise_append.2 ⟨hpw, List.pairwise_singleton _ _, ?_⟩
    intro a ha b hb
    simp only [List.mem_singleton] at hb
    subst hb
    exact (hmem a ha).2

/-! ### Claims -/

/-- C2 counterexample: at a zero-length signal (`len(y) = 0`, a
loadable 0-frame file at the native 22050 Hz rate, whose centered STFT
pads to the single all-zero frame `[0]`), `song_duration = 0`, no
peaks are found, and line 48 builds `np.sort([0, 0.0]) = [0.0, 0.0]` —
a duplicate timestamp, so the cut-time sequence is neither strictly
ordered nor duplicate-free, refuting the claim for every input. -/
theorem c2_counterexample :
    process_cut_times [0] 22050 (((0 : ℕ) : ℚ) / 22050) 0 = [0, 0]
    ∧ ¬ List.Chain' (· < ·) (process_cut_times [0] 22050 (((0 : ℕ) : ℚ) / 22050) 0)
    ∧ ¬ (process_cut_times [0] 22050 (((0 : ℕ) : ℚ) / 22050) 0).Nodup := by
  have heq : process_cut_times [0] 22050 (((0 : ℕ) : ℚ) / 22050) 0 = [0, 0] := by
    norm_num [process_cut_times, find_peaks, localMaxima, localMaxAux, cut_times,
      List.insertionSort, List.orderedInsert]
  refine ⟨heq, ?_, ?_⟩
  · rw [heq]
    simp [List.chain'_pair]
  · rw [heq]
    simp

/-- C2 as amended: for every input with a *nonempty* signal (together
with the librosa invariants: positive sample rate and — from the
`center=True` STFT framing, `n_frames = 1 + len(y) // 512` — the bound
`(n_frames − 1) * 512 ≤ len(y)`), the cut-time sequence built at line
48 of `tt.py` is strictly ordered (sorted with no duplicate
timestamps), starts at 0, ends at the song duration `len(y)/sr`, and
carries exactly the peak timestamps in between.  For the zero-length
signal the sequence is `[0, 0]`, with a duplicate (see the
counterexample). -/
theorem c2_cut_times_strictly_ordered (bassEnergy : List ℚ) (n : ℕ) (sr mx : ℚ)
    (hsr : 0 < sr) (hn : 0 < n) (hframes : (bassEnergy.length - 1) * 512 ≤ n) :
    process_cut_times bassEnergy sr ((n : ℚ) / sr) mx
        = 0 :: (find_peaks bassEnergy (mx * (7 / 10))).map (frames_to_time sr)
            ++ [(n : ℚ) / sr]
    ∧ List.Chain' (· < ·) (process_cut_times bassEnergy sr ((n : ℚ) / sr) mx)
    ∧ (process_cut_times bassEnergy sr ((n : ℚ) / sr) mx).head? = some 0
    ∧ (process_cut_times bassEnergy sr ((n : ℚ) / sr) mx).getLast?
        = some ((n : ℚ) / sr) := by
  have hpw := cut_list_pairwise bassEnergy n sr (mx * (7 / 10)) hsr hn hframes
  have heq : process_cut_times bassEnergy sr ((n : ℚ) / sr) mx
      = 0 :: (find_peaks bassEnergy (mx * (7 / 10))).map (frames_to_time sr)
          ++ [(n : ℚ) / sr] := by
    unfold process_cut_times cut_times
    exact List.Sorted.insertionSort_eq (hpw.imp le_of_lt)
  refine ⟨heq, ?_, ?_, ?_⟩
  · rw [heq]; exact hpw.chain'
  · rw [heq]; rfl
  · rw [heq]
    have hsplit : 0 :: (find_peaks bassEnergy (mx * (7 / 10))).map (frames_to_time sr)
          ++ [(n : ℚ) / sr]
        = (0 :: (find_peaks bassEnergy (mx * (7 / 10))).map (frames_to_time sr))
          ++ [(n : ℚ) / sr] := rfl
    rw [hsplit, List.getLast?_concat]

/-- Witness for C2 at a concrete input: curve `[0, 10, 0, 0, 0]`,
2048 samples at rate 512, so one peak at frame 1 (time 1) and
duration 4. -/
theorem c2_witness :
    process_cut_times [0, 10, 0, 0, 0] 512 (((2048 : ℕ) : ℚ) / 512) 10
        = 0 :: (find_peaks [0, 10, 0, 0, 0] (10 * (7 / 10))).map (frames_to_time 512)
            ++ [((2048 : ℕ) : ℚ) / 512]
    ∧ List.Chain' (· < ·)
        (process_cut_times [0, 10, 0, 0, 0] 512 (((2048 : ℕ) : ℚ) / 512) 10)
    ∧ (process_cut_times [0, 10, 0, 0, 0] 512 (((2048 : ℕ) : ℚ) / 512) 10).head? = some 0
    ∧ (process_cut_times [0, 10, 0, 0, 0] 512 (((2048 : ℕ) : ℚ) / 512) 10).getLast?
        = some (((2048 : ℕ) : ℚ) / 512) :=
  c2_cut_times_strictly_ordered [0, 10, 0, 0, 0] 2048 512 10 (by norm_num) (by norm_num)
    (by decide)

/-- C3: for every cut-time sequence containing a duplicate timestamp,
the zero-duration interval is skipped without error (the loop is total
and every emitted clip has strictly positive duration), and the number
of emitted segments equals the number of consecutive-pair intervals
with strictly positive duration. -/
theorem c3_duplicate_skipped (ct : List ℚ) (vd : ℚ) (u : ℕ → ℚ) (_hdup : ¬ ct.Nodup) :
    (buildClips ct vd u).1.length
        = ((ct.zip ct.tail).filter (fun c => decide (0 < c.2 - c.1))).length
    ∧ ∀ c ∈ (buildClips ct vd u).1, 0 < c.2 - c.1 :=
  ⟨clips_length ct vd u, clips_pos_duration ct vd u⟩

/-- Witness for C3 at the cut sequence `[0, 1, 1, 2]` with a duplicate
timestamp 1: two segments are emitted for the two positive intervals. -/
theorem c3_witness :
    ¬ ([0, 1, 1, 2] : List ℚ).Nodup
    ∧ ((buildClips [0, 1, 1, 2] 10 (fun _ => 0)).1.length
          = ((([0, 1, 1, 2] : List ℚ).zip ([0, 1, 1, 2] : List ℚ).tail).filter
              (fun c => decide (0 < c.2 - c.1))).length
        ∧ ∀ c ∈ (buildClips [0, 1, 1, 2] 10 (fun _ => 0)).1, 0 < c.2 - c.1) :=
  ⟨by decide, c3_duplicate_skipped [0, 1, 1, 2] 10 (fun _ => 0) (by decide)⟩

/-- C4: when the unit random draws lie in `[0, 1]`, every emitted clip
whose duration is at most the video duration satisfies
`0 ≤ random_start` and `random_start + clip_duration ≤ video_duration`:
the extracted sub-clip lies within the source videos bounds. -/
theorem c4_clip_within_bounds (ct : List ℚ) (vd : ℚ) (u : ℕ → ℚ)
    (hu : ∀ i, 0 ≤ u i ∧ u i ≤ 1) :
    ∀ c ∈ (buildClips ct vd u).1, c.2 - c.1 ≤ vd → 0 ≤ c.1 ∧ c.2 ≤ vd := by
  intro c hc hle
  rcases clips_shape ct vd u c hc with ⟨p, hp, rfl⟩
  simp only [clipFor, random_uniform, add_sub_cancel_left] at hle ⊢
  have h1 : (0 : ℚ) ≤ max 0 (vd - (p.2.2 - p.2.1)) := le_max_left 0 _
  have h2 : max 0 (vd - (p.2.2 - p.2.1)) * u p.1 ≤ max 0 (vd - (p.2.2 - p.2.1)) :=
    mul_le_of_le_one_right h1 (hu p.1).2
  have hmax : max 0 (vd - (p.2.2 - p.2.1)) = vd - (p.2.2 - p.2.1) :=
    max_eq_right (by linarith)
  refine ⟨mul_nonneg h1 (hu p.1).1, ?_⟩
  rw [hmax] at h2 ⊢
  linarith

/-- Witness for C4: cut sequence `[0, 2]`, video duration 5, unit draw
1/2; the emitted clip is `(3/2, 7/2)`, inside the video. -/
theorem c4_witness : (0 : ℚ) ≤ 3 / 2 ∧ (7 / 2 : ℚ) ≤ 5 := by
  have hclips : (buildClips [0, 2] 5 (fun _ => 1 / 2)).1 = [(3 / 2, 7 / 2)] := by
    rw [buildClips_eq]
    norm_num [posIntervals, List.enumFrom, List.filter, clipFor, random_uniform]
  exact c4_clip_within_bounds [0, 2] 5 (fun _ => 1 / 2)
    (fun _ => ⟨by norm_num, by norm_num⟩) (3 / 2, 7 / 2)
    (by rw [hclips]; exact List.mem_singleton.2 rfl) (by norm_num)

/-- C5: every emitted clip whose required duration exceeds the video
duration has `random_start = 0` (the random range `[0, max(0, vd − d)]`
degenerates to the single point 0, whatever the draw), and its
requested end exceeds the source videos duration. -/
theorem c5_overlong_interval_degenerate (ct : List ℚ) (vd : ℚ) (u : ℕ → ℚ) :
    ∀ c ∈ (buildClips ct vd u).1, vd < c.2 - c.1 → c.1 = 0 ∧ vd < c.2 := by
  intro c hc hgt
  rcases clips_shape ct vd u c hc with ⟨p, hp, rfl⟩
  simp only [clipFor, add_sub_cancel_left] at hgt ⊢
  have hmax : max 0 (vd - (p.2.2 - p.2.1)) = 0 := max_eq_left (by linarith)
  rw [hmax]
  unfold random_uniform
  constructor
  · exact zero_mul _
  · rw [zero_mul, zero_add]
    exact hgt

/-- Witness for C5: cut sequence `[0, 7]`, video duration 3; the single
interval needs 7 seconds from a 3-second video, so the clip is `(0, 7)`
and the requested end 7 exceeds the video duration 3. -/
theorem c5_witness : ((0 : ℚ), (7 : ℚ)).1 = 0 ∧ (3 : ℚ) < ((0 : ℚ), (7 : ℚ)).2 := by
  have hclips : (buildClips [0, 7] 3 (fun _ => 1 / 2)).1 = [(0, 7)] := by
    rw [buildClips_eq]
    norm_num [posIntervals, List.enumFrom, List.filter, clipFor, random_uniform]
  exact c5_overlong_interval_degenerate [0, 7] 3 (fun _ => 1 / 2) (0, 7)
    (by rw [hclips]; exact List.mem_singleton.2 rfl) (by norm_num)

/-- C6: for a 10-second song with detected peaks at 2s and 6s, the cut
sequence is `[0, 2, 6, 10]` and exactly 3 segments are produced, with
durations 2, 4 and 4 in that order — for every video duration and every
sequence of random draws. -/
theorem c6_ten_second_example (vd : ℚ) (u : ℕ → ℚ) :
    cut_times [2, 6] 10 = [0, 2, 6, 10]
    ∧ (buildClips (cut_times [2, 6] 10) vd u).1.length = 3
    ∧ (buildClips (cut_times [2, 6] 10) vd u).1.map (fun c => c.2 - c.1)
        = [2, 4, 4] := by
  have hct : cut_times [2, 6] 10 = [0, 2, 6, 10] := by decide
  have hpos : posIntervals [0, 2, 6, 10] 0 = [(0, 0, 2), (1, 2, 6), (2, 6, 10)] := by
    norm_num [posIntervals, List.enumFrom, List.filter]
  refine ⟨hct, ?_, ?_⟩
  · rw [hct, buildClips_eq, hpos]
    rfl
  · rw [hct, buildClips_eq, hpos]
    simp only [List.map_cons, List.map_nil, clipFor, add_sub_cancel_left]
    norm_num

/-- C10: the per-segment progress events of the clip loop are exactly
one event per positive-duration interval, whose numerator is the
1-based interval index (so skipped zero-duration intervals leave gaps
in the displayed numerators) and whose denominator is
`len(cut_times) − 1`, counting zero-duration intervals; consequently
the last message carries numerator = denominator only when the final
interval has strictly positive duration. -/
theorem c10_progress_numerators (ct : List ℚ) (vd : ℚ) (u : ℕ → ℚ) :
    (buildClips ct vd u).2
        = (((ct.zip ct.tail).enumFrom 0).filter (fun p => decide (0 < p.2.2 - p.2.1))).map
            (fun p => Ev.clipProgress (p.1 + 1) (ct.length - 1))
    ∧ ∀ e ∈ (buildClips ct vd u).2.getLast?, clipNum e = ct.length - 1 →
        ∃ a b, (ct.zip ct.tail).getLast? = some (a, b) ∧ 0 < b - a := by
  have heq := buildClips_eq ct vd u
  constructor
  · rw [heq]
    rfl
  · intro e he hnum
    rw [heq] at he
    simp only at he
    rw [List.getLast?_map] at he
    rcases Option.map_eq_some'.1 (Option.mem_def.1 he) with ⟨p, hplast, hpe⟩
    have hpmem : p ∈ posIntervals ct 0 := mem_of_getLastQ (Option.mem_def.2 hplast)
    rcases List.mem_filter.1 hpmem with ⟨hpenum, hppos⟩
    have hzip : (ct.zip ct.tail)[p.1 - 0]? = some p.2 := by
      have := List.mk_mem_enumFrom_iff_le_and_getElem?_sub.1 (by
        rw [show ((p.1, p.2) : ℕ × ℚ × ℚ) = p from rfl]
        exact hpenum)
      exact this.2
    simp only [Nat.sub_zero] at hzip
    have hlen : (ct.zip ct.tail).length = ct.length - 1 := by
      rw [List.length_zip, List.length_tail]
      omega
    have hnum' : p.1 + 1 = ct.length - 1 := by
      rw [← hpe] at hnum
      simpa [clipNum] using hnum
    have hvalid : p.1 < (ct.zip ct.tail).length := by
      have := List.getElem?_eq_some_iff.1 hzip
      exact this.1
    have hlast : (ct.zip ct.tail).getLast? = some p.2 := by
      rw [List.getLast?_eq_getElem?, hlen]
      have : ct.length - 1 - 1 = p.1 := by omega
      rw [this]
      exact hzip
    exact ⟨p.2.1, p.2.2, by simpa using hlast, by simpa using hppos⟩

/-! ### Shape of every run -/

lemma process_files_cases (env : Env) :
    (∃ e, process_files env = ([.errorBox e], none))
  ∨ (∃ e, process_files env = ([.stft, .peakDetect, .errorBox e], none))
  ∨ (∃ e, process_files env = ([.stft, .peakDetect, .loadingVideo, .errorBox e], none))
  ∨ (∃ ct vd tl out,
        process_files env = (preEvents ct vd env.u ++ tl, out)
        ∧ ((∃ e, tl = [Ev.errorBox e] ∧ out = none)
          ∨ (∃ e, tl = [Ev.mergingAudio, Ev.errorBox e] ∧ out = none)
          ∨ (∃ e, tl = [Ev.mergingAudio, Ev.saving, Ev.errorBox e] ∧ out = none)
          ∨ (tl = [Ev.mergingAudio, Ev.saving, Ev.completed, Ev.successBox]
              ∧ ∃ o, out = some o))) := by
  unfold process_files
  split
  · next e heq => exact Or.inl ⟨e, rfl⟩
  · next n sr heq =>
    split
    · next e heq2 => exact Or.inr (Or.inl ⟨e, rfl⟩)
    · next mx heq2 =>
      split
      · next e heq3 => exact Or.inr (Or.inr (Or.inl ⟨e, rfl⟩))
      · next v heq3 =>
        split
        · next hempty =>
          exact Or.inr (Or.inr (Or.inr
            ⟨process_cut_times env.bassEnergy sr ((n : ℚ) / sr) mx, v.duration,
              [Ev.errorBox "at least one clip is needed to concatenate"], none,
              rfl, Or.inl ⟨_, rfl, rfl⟩⟩))
        · next hempty =>
          split
          · next haud =>
            split
            · next e heq4 =>
              exact Or.inr (Or.inr (Or.inr
                ⟨process_cut_times env.bassEnergy sr ((n : ℚ) / sr) mx, v.duration,
                  [Ev.mergingAudio, Ev.saving, Ev.errorBox e], none,
                  rfl, Or.inr (Or.inr (Or.inl ⟨e, rfl, rfl⟩))⟩))
            · next val heq4 =>
              exact Or.inr (Or.inr (Or.inr
                ⟨process_cut_times env.bassEnergy sr ((n : ℚ) / sr) mx, v.duration,
                  [Ev.mergingAudio, Ev.saving, Ev.completed, Ev.successBox], _,
                  rfl, Or.inr (Or.inr (Or.inr ⟨rfl, _, rfl⟩))⟩))
          · next haud =>
            exact Or.inr (Or.inr (Or.inr
              ⟨process_cut_times env.bassEnergy sr ((n : ℚ) / sr) mx, v.duration,
                [Ev.mergingAudio, Ev.errorBox "NoneType object has no attribute volumex"], none,
                rfl, Or.inr (Or.inl ⟨_, rfl, rfl⟩)⟩))

lemma preEvents_append_getLast? (ct : List ℚ) (vd : ℚ) (u : ℕ → ℚ) {tl : List Ev}
    (htl : tl ≠ []) : (preEvents ct vd u ++ tl).getLast? = tl.getLast? :=
  List.getLast?_append_of_ne_nil _ htl

lemma chain'_preEvents_append (ct : List ℚ) (vd : ℚ) (u : ℕ → ℚ) (tl : List Ev)
    (htl : List.Chain' evRel (Ev.concatenating :: tl)) :
    List.Chain' evRel (preEvents ct vd u ++ tl) := by
  have hassoc : preEvents ct vd u ++ tl
      = [Ev.stft, Ev.peakDetect] ++ ((Ev.loadingVideo :: (buildClips ct vd u).2)
          ++ (Ev.concatenating :: tl)) := by
    simp [preEvents]
  rw [hassoc, List.chain'_append]
  refine ⟨List.chain'_pair.2 (Or.inl (by decide)), ?_, ?_⟩
  · rw [List.chain'_append]
    refine ⟨?_, htl, ?_⟩
    · refine List.chain'_cons'.2 ⟨?_, clipEvs_chain ct vd u⟩
      intro y hy
      have hy3 := clipEvs_stage3 ct vd u y (List.mem_of_mem_head? hy)
      exact Or.inl (by rw [hy3]; decide)
    · intro x hx y hy
      simp only [List.head?_cons, Option.mem_def, Option.some.injEq] at hy
      subst hy
      rcases List.mem_cons.1 (mem_of_getLastQ hx) with rfl | hx2
      · exact Or.inl (by decide)
      · have hx3 := clipEvs_stage3 ct vd u x hx2
        exact Or.inl (by rw [hx3]; decide)
  · intro x hx y hy
    simp only [List.getLast?_cons_cons, List.getLast?_singleton, Option.mem_def,
      Option.some.injEq] at hx
    simp only [List.cons_append, List.head?_cons, Option.mem_def,
      Option.some.injEq] at hy
    subst hx
    subst hy
    exact Or.inl (by decide)

/-- C8: for every run, an exception at any stage is caught at the top
level and surfaced as exactly one error message box — the event trace
contains exactly one error box when the run produces no output and none
when it succeeds, and on failure the error box is the final event, so
no stage runs (or is retried) after it and no output is written. -/
theorem c8_single_error_notification (env : Env) :
    (process_files env).1.countP isErrorEv
        = (if (process_files env).2.isSome then 0 else 1)
    ∧ ((process_files env).2.isSome = true
        ∨ ∃ e, (process_files env).1.getLast? = some (Ev.errorBox e)) := by
  rcases process_files_cases env with ⟨e, hpe⟩ | ⟨e, hpe⟩ | ⟨e, hpe⟩
    | ⟨ct, vd, tl, out, hpe, htl⟩
  · rw [hpe]
    exact ⟨by simp [isErrorEv, List.countP_cons], Or.inr ⟨e, by simp⟩⟩
  · rw [hpe]
    exact ⟨by simp [isErrorEv, List.countP_cons], Or.inr ⟨e, by simp⟩⟩
  · rw [hpe]
    exact ⟨by simp [isErrorEv, List.countP_cons], Or.inr ⟨e, by simp⟩⟩
  · rcases htl with ⟨e, rfl, rfl⟩ | ⟨e, rfl, rfl⟩ | ⟨e, rfl, rfl⟩ | ⟨rfl, o, rfl⟩ <;> rw [hpe]
    · refine ⟨?_, Or.inr ⟨e, ?_⟩⟩
      · simp [preEvents, List.countP_append, clipEvs_countP_error, isErrorEv,
          List.countP_cons]
      · rw [preEvents_append_getLast?]
        · rfl
        · simp
    · refine ⟨?_, Or.inr ⟨e, ?_⟩⟩
      · simp [preEvents, List.countP_append, clipEvs_countP_error, isErrorEv,
          List.countP_cons]
      · rw [preEvents_append_getLast?]
        · rfl
        · simp
    · refine ⟨?_, Or.inr ⟨e, ?_⟩⟩
      · simp [preEvents, List.countP_append, clipEvs_countP_error, isErrorEv,
          List.countP_cons]
      · rw [preEvents_append_getLast?]
        · rfl
        · simp
    · refine ⟨?_, Or.inl (by simp)⟩
      simp [preEvents, List.countP_append, clipEvs_countP_error, isErrorEv,
        List.countP_cons]

/-- C9: for every run, the event trace follows the fixed stage order —
STFT analysis, peak detection, video loading, per-segment progress
messages with increasing numerators, concatenation, audio merge, save,
completion — and ends with exactly one terminal event: the success box
on success, or a single error box carrying the failure description. -/
theorem c9_stage_order (env : Env) :
    List.Chain' evRel (process_files env).1
    ∧ (process_files env).1.countP isTerminalEv = 1
    ∧ ((process_files env).1.getLast? = some Ev.successBox
        ∨ ∃ e, (process_files env).1.getLast? = some (Ev.errorBox e)) := by
  rcases process_files_cases env with ⟨e, hpe⟩ | ⟨e, hpe⟩ | ⟨e, hpe⟩
    | ⟨ct, vd, tl, out, hpe, htl⟩
  · rw [hpe]
    refine ⟨?_, by simp [isTerminalEv, List.countP_cons], Or.inr ⟨e, by simp⟩⟩
    simp [List.chain'_cons, List.chain'_singleton, evRel, evStage]
  · rw [hpe]
    refine ⟨?_, by simp [isTerminalEv, List.countP_cons], Or.inr ⟨e, by simp⟩⟩
    simp [List.chain'_cons, List.chain'_singleton, evRel, evStage]
  · rw [hpe]
    refine ⟨?_, by simp [isTerminalEv, List.countP_cons], Or.inr ⟨e, by simp⟩⟩
    simp [List.chain'_cons, List.chain'_singleton, evRel, evStage]
  · rcases htl with ⟨e, rfl, rfl⟩ | ⟨e, rfl, rfl⟩ | ⟨e, rfl, rfl⟩ | ⟨rfl, o, rfl⟩ <;> rw [hpe]
    · refine ⟨chain'_preEvents_append ct vd env.u _ ?_, ?_, Or.inr ⟨e, ?_⟩⟩
      · simp [List.chain'_cons, List.chain'_singleton, evRel, evStage]
      · simp [preEvents, List.countP_append, clipEvs_countP_terminal, isTerminalEv,
          List.countP_cons]
      · rw [preEvents_append_getLast?]
        · rfl
        · simp
    · refine ⟨chain'_preEvents_append ct vd env.u _ ?_, ?_, Or.inr ⟨e, ?_⟩⟩
      · simp [List.chain'_cons, List.chain'_singleton, evRel, evStage]
      · simp [preEvents, List.countP_append, clipEvs_countP_terminal, isTerminalEv,
          List.countP_cons]
      · rw [preEvents_append_getLast?]
        · rfl
        · simp
    · refine ⟨chain'_preEvents_append ct vd env.u _ ?_, ?_, Or.inr ⟨e, ?_⟩⟩
      · simp [List.chain'_cons, List.chain'_singleton, evRel, evStage]
      · simp [preEvents, List.countP_append, clipEvs_countP_terminal, isTerminalEv,
          List.countP_cons]
      · rw [preEvents_append_getLast?]
        · rfl
        · simp
    · refine ⟨chain'_preEvents_append ct vd env.u _
        (by simp [List.chain'_cons, List.chain'_singleton, evRel, evStage]), ?_, Or.inl ?_⟩
      · simp [preEvents, List.countP_append, clipEvs_countP_terminal, isTerminalEv,
          List.countP_cons]
      · rw [preEvents_append_getLast?]
        · rfl
        · simp

/-! ### C1: flat or empty bass-energy curve -/

/-- An environment whose STFT stage yields an empty bass-energy curve;
everything else is healthy. -/
def envEmptyCurve : Env :=
  { load := .ok (22050, 22050), bassEnergy := [], video := .ok ⟨10, 30, true⟩,
    u := fun _ => 0, writeResult := .ok () }

/-- C1 counterexample: on an empty bass-energy curve the run does not
produce a single segment — `np.max` of an empty array raises, the
top-level handler shows the error box, and no output is written, so no
cut-time sequence and no segment exists.  (The error is raised after the
"Detecting peak points..." message, at `np.max(bass_energy)`.) -/
theorem c1_counterexample :
    process_files envEmptyCurve
      = ([Ev.stft, Ev.peakDetect,
          Ev.errorBox "zero-size array to reduction operation maximum which has no identity"],
        none) := rfl

/-- C1 as amended: for a flat *nonempty* bass-energy curve (and a
healthy environment with a nonempty signal), no peaks are found at the
code threshold, the cut-time sequence is exactly
`[0, song_duration]`, and exactly one output segment is produced.  An
empty curve instead aborts the run (see the counterexample). -/
theorem c1_flat_curve_single_segment (env : Env) (n : ℕ) (sr c : ℚ) (v : Video)
    (hload : env.load = .ok (n, sr)) (hsr : 0 < sr) (hn : 0 < n)
    (hne : env.bassEnergy ≠ []) (hflat : ∀ y ∈ env.bassEnergy, y = c)
    (hvid : env.video = .ok v) (haud : v.hasAudio = true)
    (hw : env.writeResult = .ok ()) :
    find_peaks env.bassEnergy (c * (7 / 10)) = []
    ∧ process_cut_times env.bassEnergy sr ((n : ℚ) / sr) c = [0, (n : ℚ) / sr]
    ∧ ∃ out, (process_files env).2 = some out ∧ out.clips.length = 1 := by
  have hsd : 0 < (n : ℚ) / sr := div_pos (by exact_mod_cast hn) hsr
  have hpk : ∀ h, find_peaks env.bassEnergy h = [] := find_peaks_flat env.bassEnergy c hflat
  have hct : process_cut_times env.bassEnergy sr ((n : ℚ) / sr) c = [0, (n : ℚ) / sr] := by
    unfold process_cut_times cut_times
    rw [hpk]
    simp only [List.map_nil, List.nil_append]
    exact List.Sorted.insertionSort_eq (by simp [List.sorted_cons, le_of_lt hsd])
  have hmx : npMax env.bassEnergy = .ok c := npMax_flat env.bassEnergy c hne hflat
  have hp1 : posIntervals [0, (n : ℚ) / sr] 0 = [(0, 0, (n : ℚ) / sr)] := by
    simp [posIntervals, List.enumFrom, List.filter, hsd]
  have hclips1 : (buildClips [0, (n : ℚ) / sr] v.duration env.u).1
      = [clipFor v.duration env.u (0, 0, (n : ℚ) / sr)] := by
    rw [buildClips_eq, hp1]
    rfl
  refine ⟨hpk _, hct, ?_⟩
  simp only [process_files, hload, hmx, hvid, hw, hct, hclips1]
  simp only [List.isEmpty_cons, Bool.false_eq_true, if_false, haud, if_true]
  exact ⟨_, rfl, rfl⟩

/-- A healthy environment with a flat bass-energy curve `[3, 3, 3]`,
2048 samples at rate 512 (duration 4). -/
def envFlatW : Env :=
  { load := .ok (2048, 512), bassEnergy := [3, 3, 3], video := .ok ⟨10, 30, true⟩,
    u := fun _ => 0, writeResult := .ok () }

/-- Witness for the amended C1, at the flat curve `[3, 3, 3]`. -/
theorem c1_flat_curve_witness :
    find_peaks envFlatW.bassEnergy (3 * (7 / 10)) = []
    ∧ process_cut_times envFlatW.bassEnergy 512 (((2048 : ℕ) : ℚ) / 512) 3
        = [0, ((2048 : ℕ) : ℚ) / 512]
    ∧ ∃ out, (process_files envFlatW).2 = some out ∧ out.clips.length = 1 :=
  c1_flat_curve_single_segment envFlatW 2048 512 3 ⟨10, 30, true⟩ rfl (by norm_num)
    (by norm_num) (by simp [envFlatW]) (by simp [envFlatW]) rfl rfl rfl

/-! ### C7: the mixed audio track -/

/-- C7: every successful run writes an output whose audio track is the
`CompositeAudioClip` of the concatenated video audio at half volume and
the source song trimmed to the final video duration at half volume, and
the mixed track duration equals the final video duration. -/
theorem c7_mixed_audio (env : Env) (out : Output)
    (h : (process_files env).2 = some out) :
    (∃ sd, out.audio
        = Audio.composite (Audio.volumex (Audio.source "native" out.duration) (1 / 2))
            (Audio.volumex (Audio.subclip (Audio.source "song" sd) 0 out.duration) (1 / 2)))
    ∧ audioDuration out.audio = out.duration := by
  unfold process_files at h
  split at h
  · simp at h
  · next n sr heq =>
    split at h
    · simp at h
    · next mx heq2 =>
      split at h
      · simp at h
      · next v heq3 =>
        split at h
        · simp at h
        · split at h
          · split at h
            · simp at h
            · next val heq4 =>
              have h2 := Option.some.inj h
              subst h2
              refine ⟨⟨(n : ℚ) / sr, rfl⟩, ?_⟩
              simp [mixedAudio, audioDuration, sub_zero, max_self]
          · simp at h

/-- A healthy environment with the curve `[0, 10, 0]` (one peak),
1024 samples at rate 512 (duration 2), a 10-second video with audio. -/
def envSuccessW : Env :=
  { load := .ok (1024, 512), bassEnergy := [0, 10, 0], video := .ok ⟨10, 30, true⟩,
    u := fun _ => 0, writeResult := .ok () }

/-- The output `process_files` writes for `envSuccessW`. -/
def outSuccessW : Output :=
  { clips := [(0, 1), (0, 1)], duration := 2,
    audio := mixedAudio 2 2, fps := 30 }

lemma envSuccessW_run : (process_files envSuccessW).2 = some outSuccessW := by
  have hmx : npMax [0, 10, 0] = .ok 10 := by norm_num [npMax, List.foldl, max_def]
  have hpk : find_peaks [0, 10, 0] (10 * (7 / 10)) = [1] := by
    norm_num [find_peaks, localMaxima, localMaxAux, plateauEndAt, plateauEnd, List.getD]
  have hct : process_cut_times [0, 10, 0] 512 (((1024 : ℕ) : ℚ) / 512) 10 = [0, 1, 2] := by
    rw [process_cut_times, hpk]
    norm_num [cut_times, frames_to_time, List.insertionSort, List.orderedInsert]
  have hbc : buildClips [0, 1, 2] 10 (fun _ => (0 : ℚ))
      = ([(0, 1), (0, 1)], [Ev.clipProgress 1 2, Ev.clipProgress 2 2]) := by
    rw [buildClips_eq]
    norm_num [posIntervals, List.enumFrom, List.filter, clipFor, random_uniform]
  have hdur : ((1024 : ℕ) : ℚ) / 512 = 2 := by norm_num
  simp only [process_files, envSuccessW, hmx, hct, hbc]
  simp only [List.isEmpty_cons, Bool.false_eq_true, if_false, if_true]
  simp only [outSuccessW, finalDuration, hdur]
  norm_num

/-- Witness for C7 at `envSuccessW`: the written audio is the half-half
mix and its duration equals the output duration. -/
theorem c7_mixed_audio_witness :
    (∃ sd, outSuccessW.audio
        = Audio.composite
            (Audio.volumex (Audio.source "native" outSuccessW.duration) (1 / 2))
            (Audio.volumex
              (Audio.subclip (Audio.source "song" sd) 0 outSuccessW.duration) (1 / 2)))
    ∧ audioDuration outSuccessW.audio = outSuccessW.duration :=
  c7_mixed_audio envSuccessW outSuccessW envSuccessW_run

/-- Witness for C6 at video duration 10 and the constant zero draw. -/
theorem c6_ten_second_example_witness :
    cut_times [2, 6] 10 = [0, 2, 6, 10]
    ∧ (buildClips (cut_times [2, 6] 10) 10 (fun _ => 0)).1.length = 3
    ∧ (buildClips (cut_times [2, 6] 10) 10 (fun _ => 0)).1.map (fun c => c.2 - c.1)
        = [2, 4, 4] :=
  c6_ten_second_example 10 (fun _ => 0)

/-- Witness for C8 at the empty-curve environment: the failing run
emits exactly one error box, as the final event. -/
theorem c8_single_error_notification_witness :
    (process_files envEmptyCurve).1.countP isErrorEv
        = (if (process_files envEmptyCurve).2.isSome then 0 else 1)
    ∧ ((process_files envEmptyCurve).2.isSome = true
        ∨ ∃ e, (process_files envEmptyCurve).1.getLast? = some (Ev.errorBox e)) :=
  c8_single_error_notification envEmptyCurve

/-- Witness for C9 at the successful environment `envSuccessW`. -/
theorem c9_stage_order_witness :
    List.Chain' evRel (process_files envSuccessW).1
    ∧ (process_files envSuccessW).1.countP isTerminalEv = 1
    ∧ ((process_files envSuccessW).1.getLast? = some Ev.successBox
        ∨ ∃ e, (process_files envSuccessW).1.getLast? = some (Ev.errorBox e)) :=
  c9_stage_order envSuccessW

/-- Witness for C10 at the duplicate-bearing cut sequence
`[0, 1, 1, 2]`. -/
theorem c10_progress_numerators_witness :
    (buildClips [0, 1, 1, 2] 10 (fun _ => 0)).2
        = (((([0, 1, 1, 2] : List ℚ).zip ([0, 1, 1, 2] : List ℚ).tail).enumFrom 0).filter
            (fun p => decide (0 < p.2.2 - p.2.1))).map
            (fun p => Ev.clipProgress (p.1 + 1) (([0, 1, 1, 2] : List ℚ).length - 1))
    ∧ ∀ e ∈ (buildClips [0, 1, 1, 2] 10 (fun _ => 0)).2.getLast?,
        clipNum e = ([0, 1, 1, 2] : List ℚ).length - 1 →
        ∃ a b, (([0, 1, 1, 2] : List ℚ).zip ([0, 1, 1, 2] : List ℚ).tail).getLast?
            = some (a, b) ∧ 0 < b - a :=
  c10_progress_numerators [0, 1, 1, 2] 10 (fun _ => 0)

end VideoEdit
